import Mathlib

/-!
Shallow embedding of the binary Merkle tree scheme in
`crates/core/src/merkle_tree/scheme.rs` (struct `BinaryMerkleTreeScheme` and
the free function `fold_digests_vector_inplace`).

Modelling conventions:
* The digest type `Output<H>` is an abstract type `D` with decidable equality
  and a default element (the Rust bound is `Clone + Default + Send + Sync`).
* The compression function `C : PseudoCompressionFunction<D, 2>` is an
  abstract binary function `c : D → D → D`; `compress [a, b]` is `c a b`.
* The leaf hasher `hash_serialize::<F, H>` is an abstract total function
  `hashF : List F → D` (the spec guarantees serialization of the field type
  is total, so the surrounding `expect` can never fire).
* Rust `usize` values are modelled as `Nat`.  Subtraction is the one spot
  where this matters: `usize` subtraction underflows when the subtrahend is
  larger, which is an arithmetic-overflow program error in Rust (a panic in
  overflow-checked builds), not a truncation at zero as for `Nat`.  It is
  therefore modelled by `usizeSub`, which returns `none` on underflow, and the
  functions whose source can underflow return `Option` results where `none`
  marks that panic.  Likewise Rust's `%` by zero always panics, and Rust slice
  indexing panics out of bounds; both are modelled as `none`.
* A mutable `&mut [D]` buffer is modelled by state passing: the function
  returns the final buffer contents next to its `Result` value.
-/

namespace BinaryMerkle

/-- Union of the error enums reachable from the scheme: `Error`
(`PowerOfTwoLengthRequired`, `IncorrectLayerDepth`, `IncorrectBatchSize`,
`IndexOutOfRange { max }`) and `VerificationError`
(`IncorrectVectorLength`, `InvalidProof`), plus the transcript reader's
stream-exhaustion error that `verify_opening` propagates with `?`. -/
inductive Error where
  | PowerOfTwoLengthRequired
  | IncorrectLayerDepth
  | IncorrectBatchSize
  | IndexOutOfRange (max : Nat)
  | IncorrectVectorLength
  | InvalidProof
  | TranscriptUnderrun
  deriving DecidableEq

instance {ε α : Type} [DecidableEq ε] [DecidableEq α] : DecidableEq (Except ε α)
  | Except.ok a, Except.ok b =>
    decidable_of_iff (a = b) (by constructor <;> (intro h; cases h; rfl))
  | Except.ok _, Except.error _ => isFalse (by intro h; cases h)
  | Except.error _, Except.ok _ => isFalse (by intro h; cases h)
  | Except.error e, Except.error e' =>
    decidable_of_iff (e = e') (by constructor <;> (intro h; cases h; rfl))

/-- Rust `usize` subtraction `a - b`: `none` models the arithmetic-overflow
program error (panic) on underflow. -/
def usizeSub (a b : Nat) : Option Nat :=
  if b ≤ a then some (a - b) else none

/-- Fuel-indexed worker for `isPowerOfTwo`; the fuel only forces structural
recursion and is always started at `n` itself, which `n` halvings never
exhaust. -/
def isPow2Aux : Nat → Nat → Bool
  | _, 0 => false
  | _, 1 => true
  | 0, _ => false
  | fuel + 1, n => n % 2 == 0 && isPow2Aux fuel (n / 2)

/-- Rust `usize::is_power_of_two` (in particular `0` is not a power of two). -/
def isPowerOfTwo (n : Nat) : Bool :=
  isPow2Aux n n

/-- Fuel-indexed worker for `log2_strict_usize`. -/
def log2Aux : Nat → Nat → Nat
  | 0, _ => 0
  | fuel + 1, n => if n ≤ 1 then 0 else log2Aux fuel (n / 2) + 1

/-- Modelled from the spec: `log2_strict_usize` from `binius_utils`
(`checked_arithmetics`, not under `src/`) returns the exact base-2 logarithm
of its argument; `proof_size` only applies it after checking the argument is
a power of two. -/
def log2_strict_usize (n : Nat) : Nat :=
  log2Aux n n

/-- Modelled from the spec: `log2_ceil_usize` from `binius_utils` (not under
`src/`) returns `ceil(log2 n)`, i.e. the least `k` with `n ≤ 2 ^ k`. -/
def log2_ceil_usize (n : Nat) : Nat :=
  Nat.clog 2 n

section Scheme

variable {D F : Type} [Inhabited D] [DecidableEq D]

/-- One level of `fold_digests_vector_inplace`: the inner
`for i in 0..len { digests[i] = compress([digests[2i], digests[2i+1]]) }`
loop, rendered as a fold of the buffer over the index range. -/
def foldLevel (c : D → D → D) (len : Nat) (ds : List D) : List D :=
  (List.range len).foldl
    (fun acc i => acc.set i (c (acc.getD (2 * i) default) (acc.getD (2 * i + 1) default)))
    ds

/-- The `while len != 0 { ...; len /= 2 }` loop of
`fold_digests_vector_inplace`. -/
def foldLoop (c : D → D → D) (ds : List D) (len : Nat) : List D :=
  if len = 0 then ds else foldLoop c (foldLevel c len ds) (len / 2)
  termination_by len
  decreasing_by exact Nat.div_lt_self (Nat.pos_of_ne_zero (by assumption)) one_lt_two

/-- `fold_digests_vector_inplace(compression, digests)`: fails unless the
length is a power of two, otherwise repeatedly overwrites the low half of the
working prefix with pairwise compressions.  The returned list is the final
contents of the `&mut [D]` buffer. -/
def fold_digests_vector_inplace (c : D → D → D) (ds : List D) :
    Except Error Unit × List D :=
  if isPowerOfTwo ds.length then (Except.ok (), foldLoop c ds (ds.length / 2))
  else (Except.error Error.PowerOfTwoLengthRequired, ds)

/-- The conceptual Merkle node recurrence over a list of leaf digests of
length `2 ^ d`: `node d i` is leaf `i`, and
`node k j = c (node (k+1) (2j)) (node (k+1) (2j+1))` for `k < d`. -/
def node (c : D → D → D) (leaves : List D) (d : Nat) (k : Nat) (j : Nat) : D :=
  if d ≤ k then leaves.getD j default
  else c (node c leaves d (k + 1) (2 * j)) (node c leaves d (k + 1) (2 * j + 1))
  termination_by d - k
  decreasing_by all_goals omega

/-- Modelled from the spec: `TranscriptReader::read_vec` (the
`crate::transcript` proof-transcript reader, not under `src/`) is a forward
cursor that reads `n` digests in order and fails with a stream-exhaustion
error when fewer than `n` remain.  The result is the digests read together
with the rest of the stream. -/
def readVec (n : Nat) (s : List D) : Except Error (List D × List D) :=
  if n ≤ s.length then Except.ok (s.take n, s.drop n)
  else Except.error Error.TranscriptUnderrun

/-- The sibling-recombination loop of `verify_opening`: for each branch node
read, compress with the current digest on the side given by the parity of the
current index, then halve the index. -/
def openLoop (c : D → D → D) : D → Nat → List D → D × Nat
  | dg, i, [] => (dg, i)
  | dg, i, s :: rest => openLoop c (if i % 2 = 0 then c dg s else c s dg) (i / 2) rest

/-- `verify_opening(index, values, layer_depth, tree_depth, layer_digests,
proof)`.  The outer `Option` marks panics: `none` when the
`tree_depth - layer_depth` subtraction underflows or the final
`layer_digests[index]` access is out of bounds.  A `some` result carries the
`Result` value and the proof stream left after the call. -/
def verify_opening (c : D → D → D) (hashF : List F → D) (index : Nat)
    (values : List F) (layer_depth tree_depth : Nat) (layer_digests : List D)
    (proof : List D) : Option (Except Error Unit × List D) :=
  if 2 ^ layer_depth ≠ layer_digests.length then
    some (Except.error Error.IncorrectVectorLength, proof)
  else if 2 ^ tree_depth ≤ index then
    some (Except.error (Error.IndexOutOfRange (2 ^ tree_depth - 1)), proof)
  else
    match usizeSub tree_depth layer_depth with
    | none => none
    | some k =>
      match readVec k proof with
      | Except.error e => some (Except.error e, proof)
      | Except.ok (branch, rest) =>
        let r := openLoop c (hashF values) index branch
        match layer_digests.get? r.2 with
        | none => none
        | some dg =>
          some (if r.1 = dg then Except.ok () else Except.error Error.InvalidProof, rest)

/-- `verify_layer(root, layer_depth, layer_digests)`, with the caller-visible
`layer_digests` slice returned as the second component: the source folds a
`to_owned` copy of the slice, so the caller's sequence is never written to. -/
def verify_layer_st (c : D → D → D) (root : D) (layer_depth : Nat)
    (layer_digests : List D) : Except Error Unit × List D :=
  if 2 ^ layer_depth ≠ layer_digests.length then
    (Except.error Error.IncorrectVectorLength, layer_digests)
  else
    match fold_digests_vector_inplace c layer_digests with
    | (Except.error e, _) => (Except.error e, layer_digests)
    | (Except.ok (), folded) =>
      (if folded.getD 0 default ≠ root then Except.error Error.InvalidProof
       else Except.ok (), layer_digests)

/-- The `Result` value of `verify_layer`. -/
def verify_layer (c : D → D → D) (root : D) (layer_depth : Nat)
    (layer_digests : List D) : Except Error Unit :=
  (verify_layer_st c root layer_depth layer_digests).1

/-- Rust `data.chunks(batch_size)` (callers only reach it with
`batch_size ∣ data.len()`, in which case every chunk has exactly
`batch_size` elements); the `batch_size = 0` guard is only for totality,
`verify_vector` panics before calling it in that case. -/
def chunks (bs : Nat) : List F → List (List F)
  | [] => []
  | x :: xs =>
    if bs = 0 then []
    else (x :: xs).take bs :: chunks bs ((x :: xs).drop bs)
  termination_by l => l.length
  decreasing_by
    rename_i h0
    simp only [List.length_drop, List.length_cons]
    omega

/-- `verify_vector(root, data, batch_size)`: `none` models the panic of
`data.len() % batch_size` when `batch_size = 0` (remainder by zero). -/
def verify_vector (c : D → D → D) (hashF : List F → D) (root : D)
    (data : List F) (batch_size : Nat) : Option (Except Error Unit) :=
  if batch_size = 0 then none
  else if data.length % batch_size ≠ 0 then some (Except.error Error.IncorrectBatchSize)
  else
    match fold_digests_vector_inplace c ((chunks batch_size data).map hashF) with
    | (Except.error e, _) => some (Except.error e)
    | (Except.ok (), folded) =>
      some (if folded.getD 0 default ≠ root then Except.error Error.InvalidProof
            else Except.ok ())

end Scheme

/-- `proof_size(len, n_queries, layer_depth)` with the digest byte size
`<H as Digest>::output_size()` abstracted as `output_size`.  `none` models
the underflow panic of `log_len - layer_depth - 1`, which the
`layer_depth > log_len` check does not rule out at `layer_depth = log_len`. -/
def proof_size (output_size len n_queries layer_depth : Nat) :
    Option (Except Error Nat) :=
  if isPowerOfTwo len = false then some (Except.error Error.PowerOfTwoLengthRequired)
  else
    let log_len := log2_strict_usize len
    if layer_depth > log_len then some (Except.error Error.IncorrectLayerDepth)
    else
      match usizeSub log_len layer_depth with
      | none => none
      | some a =>
        match usizeSub a 1 with
        | none => none
        | some b => some (Except.ok ((b * n_queries + 2 ^ layer_depth) * output_size))

/-- `optimal_verify_layer(n_queries, tree_depth)`. -/
def optimal_verify_layer (n_queries tree_depth : Nat) : Nat :=
  min (log2_ceil_usize n_queries) tree_depth

section SpecSide

variable {D F : Type} [Inhabited D] [DecidableEq D]

/-- The true layer at depth `k` of the conceptual tree over `leaves` of
length `2 ^ d`: the ordered sequence of the `2 ^ k` node digests at that
depth. -/
def layerList (c : D → D → D) (leaves : List D) (d k : Nat) : List D :=
  (List.range (2 ^ k)).map (node c leaves d k)

/-- The true authentication path for the node at depth `t` and index `i`,
climbing `m` levels: at each level the sibling digest (index with the last
bit flipped), leaf-to-root order. -/
def authPath (c : D → D → D) (leaves : List D) (d : Nat) :
    Nat → Nat → Nat → List D
  | _, _, 0 => []
  | t, i, m + 1 =>
    node c leaves d t (if i % 2 = 0 then i + 1 else i - 1) ::
      authPath c leaves d (t - 1) (i / 2) m

end SpecSide

/-- A concrete compression function on `Nat` digests, used to exercise the
scheme at concrete inputs. -/
def natCompress (a b : Nat) : Nat := 2 * a + 3 * b + 5

/-- A concrete leaf hasher on `Nat` field elements, used to exercise the
scheme at concrete inputs. -/
def natHash (l : List Nat) : Nat := l.foldl (fun s x => 7 * s + x) 1

/-! ### Arithmetic and list helper lemmas -/

lemma getD_set_self {α : Type} (l : List α) (i : Nat) (v d : α) (h : i < l.length) :
    (l.set i v).getD i d = v := by
  rw [List.getD_eq_getElem _ _ (by simpa using h)]
  exact List.getElem_set_self _

lemma getD_set_ne {α : Type} (l : List α) (i j : Nat) (v d : α) (h : i ≠ j) :
    (l.set i v).getD j d = l.getD j d := by
  rw [List.getD_eq_getD_get?, List.get?_set_ne _ _ h, ← List.getD_eq_getD_get?]

lemma getD_map_of_lt {α β : Type} (f : α → β) (l : List α) (j : Nat) (da : α) (db : β)
    (h : j < l.length) : (l.map f).getD j db = f (l.getD j da) := by
  rw [List.getD_eq_getElem _ _ (by simpa using h), List.getD_eq_getElem _ _ h,
    List.getElem_map]

lemma div_two_pow_lt {i a b : Nat} (h : i < 2 ^ (a + b)) : i / 2 ^ b < 2 ^ a := by
  rw [Nat.div_lt_iff_lt_mul (Nat.pos_pow_of_pos b two_pos), ← pow_add]
  exact h

lemma isPow2Aux_two_pow : ∀ (d fuel : Nat), 2 ^ d ≤ fuel → isPow2Aux fuel (2 ^ d) = true := by
  intro d
  induction d with
  | zero =>
    intro fuel _
    cases fuel <;> simp [isPow2Aux]
  | succ d ih =>
    intro fuel hfuel
    have h2 : 2 ≤ 2 ^ (d + 1) := Nat.one_lt_two_pow_iff.mpr (by omega)
    cases fuel with
    | zero => omega
    | succ f =>
      obtain ⟨m, hm⟩ : ∃ m, 2 ^ (d + 1) = m + 2 := ⟨2 ^ (d + 1) - 2, by omega⟩
      rw [hm]
      show ((m + 2) % 2 == 0 && isPow2Aux f ((m + 2) / 2)) = true
      have hmod : (m + 2) % 2 = 0 := by
        have : 2 ^ (d + 1) % 2 = 0 := by
          rw [pow_succ]; exact Nat.mul_mod_left _ _
        omega
      have hdiv : (m + 2) / 2 = 2 ^ d := by
        have : 2 ^ (d + 1) / 2 = 2 ^ d := by
          rw [pow_succ]; exact Nat.mul_div_cancel _ two_pos
        omega
      have hpow : 0 < 2 ^ d := Nat.pos_pow_of_pos d two_pos
      have hps : 2 ^ (d + 1) = 2 ^ d * 2 := pow_succ 2 d
      rw [hmod, hdiv, ih f (by omega)]
      rfl

lemma isPowerOfTwo_two_pow (d : Nat) : isPowerOfTwo (2 ^ d) = true :=
  isPow2Aux_two_pow d (2 ^ d) le_rfl

lemma exists_pow_of_isPow2Aux :
    ∀ (fuel n : Nat), n ≤ fuel → isPow2Aux fuel n = true → ∃ d, n = 2 ^ d := by
  intro fuel
  induction fuel with
  | zero =>
    intro n hn h
    interval_cases n
    · simp [isPow2Aux] at h
  | succ f ih =>
    intro n hn h
    match n with
    | 0 => simp [isPow2Aux] at h
    | 1 => exact ⟨0, rfl⟩
    | m + 2 =>
      have h' : ((m + 2) % 2 == 0 && isPow2Aux f ((m + 2) / 2)) = true := h
      rw [Bool.and_eq_true, beq_iff_eq] at h'
      obtain ⟨hmod, hrec⟩ := h'
      obtain ⟨d, hd⟩ := ih ((m + 2) / 2) (by omega) hrec
      refine ⟨d + 1, ?_⟩
      have : 2 ^ (d + 1) = 2 ^ d * 2 := pow_succ 2 d
      omega

lemma isPowerOfTwo_eq_true_iff (n : Nat) : isPowerOfTwo n = true ↔ ∃ d, n = 2 ^ d := by
  constructor
  · exact exists_pow_of_isPow2Aux n n le_rfl
  · rintro ⟨d, rfl⟩
    exact isPowerOfTwo_two_pow d

lemma isPowerOfTwo_eq_false_of (n : Nat) (h : ∀ d, n ≠ 2 ^ d) : isPowerOfTwo n = false := by
  by_contra hc
  obtain ⟨d, hd⟩ := (isPowerOfTwo_eq_true_iff n).mp (by revert hc; cases isPowerOfTwo n <;> simp)
  exact h d hd

lemma log2Aux_two_pow : ∀ (d fuel : Nat), 2 ^ d ≤ fuel → log2Aux fuel (2 ^ d) = d := by
  intro d
  induction d with
  | zero =>
    intro fuel hfuel
    cases fuel with
    | zero => omega
    | succ f => simp [log2Aux]
  | succ d ih =>
    intro fuel hfuel
    have h2 : 2 ≤ 2 ^ (d + 1) := Nat.one_lt_two_pow_iff.mpr (by omega)
    cases fuel with
    | zero => omega
    | succ f =>
      have hdiv : 2 ^ (d + 1) / 2 = 2 ^ d := by
        rw [pow_succ]; exact Nat.mul_div_cancel _ two_pos
      have hpow : 0 < 2 ^ d := Nat.pos_pow_of_pos d two_pos
      have hps : 2 ^ (d + 1) = 2 ^ d * 2 := pow_succ 2 d
      show (if 2 ^ (d + 1) ≤ 1 then 0 else log2Aux f (2 ^ (d + 1) / 2) + 1) = d + 1
      rw [if_neg (by omega), hdiv, ih f (by omega)]

lemma log2_strict_two_pow (d : Nat) : log2_strict_usize (2 ^ d) = d :=
  log2Aux_two_pow d (2 ^ d) le_rfl

/-! ### Behaviour of the folding routine -/

section FoldLemmas

variable {D F : Type} [Inhabited D] [DecidableEq D]

lemma node_leaf (c : D → D → D) (leaves : List D) (d k j : Nat) (h : d ≤ k) :
    node c leaves d k j = leaves.getD j default := by
  rw [node]; simp [h]

lemma node_inner (c : D → D → D) (leaves : List D) (d k j : Nat) (h : k < d) :
    node c leaves d k j =
      c (node c leaves d (k + 1) (2 * j)) (node c leaves d (k + 1) (2 * j + 1)) := by
  conv_lhs => rw [node]
  simp [Nat.not_le.mpr h]

lemma foldLevel_length (c : D → D → D) (len : Nat) (ds : List D) :
    (foldLevel c len ds).length = ds.length := by
  show ((List.range len).foldl _ ds).length = ds.length
  generalize List.range len = is
  induction is generalizing ds with
  | nil => rfl
  | cons i is ih =>
    rw [List.foldl_cons, ih]
    simp

lemma foldLevel_getD (c : D → D → D) (ds : List D) :
    ∀ (len : Nat), 2 * len ≤ ds.length → ∀ j,
      (foldLevel c len ds).getD j default =
        if j < len then c (ds.getD (2 * j) default) (ds.getD (2 * j + 1) default)
        else ds.getD j default := by
  intro len
  induction len with
  | zero =>
    intro _ j
    simp [foldLevel]
  | succ len ih =>
    intro h2 j
    have h2' : 2 * len ≤ ds.length := by omega
    have hstep : foldLevel c (len + 1) ds =
        (foldLevel c len ds).set len
          (c ((foldLevel c len ds).getD (2 * len) default)
            ((foldLevel c len ds).getD (2 * len + 1) default)) := by
      show (List.range (len + 1)).foldl _ ds = _
      rw [List.range_succ, List.foldl_append]
      rfl
    have hr1 : (foldLevel c len ds).getD (2 * len) default = ds.getD (2 * len) default := by
      rw [ih h2', if_neg (by omega)]
    have hr2 : (foldLevel c len ds).getD (2 * len + 1) default =
        ds.getD (2 * len + 1) default := by
      rw [ih h2', if_neg (by omega)]
    rw [hstep, hr1, hr2]
    by_cases hj : j = len
    · subst hj
      rw [getD_set_self _ _ _ _ (by rw [foldLevel_length]; omega), if_pos (by omega)]
    · rw [getD_set_ne _ _ _ _ _ (by omega), ih h2']
      by_cases hlt : j < len
      · rw [if_pos hlt, if_pos (by omega)]
      · rw [if_neg hlt, if_neg (by omega)]

lemma foldLoop_zero (c : D → D → D) (ds : List D) : foldLoop c ds 0 = ds := by
  unfold foldLoop; simp

lemma foldLoop_of_ne (c : D → D → D) (ds : List D) (len : Nat) (h : len ≠ 0) :
    foldLoop c ds len = foldLoop c (foldLevel c len ds) (len / 2) := by
  conv_lhs => rw [foldLoop]
  simp [h]

lemma foldLoop_length (c : D → D → D) :
    ∀ (len : Nat) (ds : List D), (foldLoop c ds len).length = ds.length := by
  intro len
  induction len using Nat.strong_induction_on with
  | _ len ih =>
    intro ds
    rcases Nat.eq_zero_or_pos len with h0 | hpos
    · rw [h0, foldLoop_zero]
    · rw [foldLoop_of_ne c ds len (by omega),
        ih (len / 2) (Nat.div_lt_self hpos one_lt_two), foldLevel_length]

lemma foldLoop_root (c : D → D → D) (leaves : List D) (d : Nat) :
    ∀ (k : Nat) (ds : List D), ds.length = 2 ^ d → k < d →
      (∀ i, i < 2 ^ (k + 1) → ds.getD i default = node c leaves d (k + 1) i) →
      (foldLoop c ds (2 ^ k)).getD 0 default = node c leaves d 0 0 := by
  intro k
  induction k with
  | zero =>
    intro ds hlen hkd hinv
    have h2 : 2 ≤ ds.length := by
      rw [hlen]
      calc 2 = 2 ^ 1 := (pow_one 2).symm
        _ ≤ 2 ^ d := Nat.pow_le_pow_right two_pos (by omega)
    rw [pow_zero, foldLoop_of_ne c ds 1 one_ne_zero,
      show (1 : Nat) / 2 = 0 by norm_num, foldLoop_zero,
      foldLevel_getD c ds 1 (by omega) 0, if_pos (by norm_num : (0 : Nat) < 1),
      node_inner c leaves d 0 0 hkd,
      hinv (2 * 0) (by norm_num), hinv (2 * 0 + 1) (by norm_num)]
  | succ k ih =>
    intro ds hlen hkd hinv
    have hne : (2 : Nat) ^ (k + 1) ≠ 0 := (Nat.pos_pow_of_pos _ two_pos).ne'
    have hdiv : 2 ^ (k + 1) / 2 = 2 ^ k := by
      rw [pow_succ]; exact Nat.mul_div_cancel _ two_pos
    rw [foldLoop_of_ne c ds (2 ^ (k + 1)) hne, hdiv]
    have hps : 2 ^ (k + 1 + 1) = 2 ^ (k + 1) * 2 := pow_succ 2 (k + 1)
    have hle : 2 ^ (k + 1 + 1) ≤ 2 ^ d := Nat.pow_le_pow_right two_pos (by omega)
    have h2 : 2 * 2 ^ (k + 1) ≤ ds.length := by rw [hlen]; omega
    refine ih (foldLevel c (2 ^ (k + 1)) ds) ?_ (by omega) ?_
    · rw [foldLevel_length]; exact hlen
    · intro i hi
      rw [foldLevel_getD c ds (2 ^ (k + 1)) h2 i, if_pos hi,
        node_inner c leaves d (k + 1) i (by omega),
        hinv (2 * i) (by omega), hinv (2 * i + 1) (by omega)]

lemma fold_ok (c : D → D → D) (ds : List D) (d : Nat) (h : ds.length = 2 ^ d) :
    fold_digests_vector_inplace c ds = (Except.ok (), foldLoop c ds (ds.length / 2)) := by
  unfold fold_digests_vector_inplace
  rw [if_pos (by rw [h]; exact isPowerOfTwo_two_pow d)]

lemma fold_error (c : D → D → D) (ds : List D) (h : isPowerOfTwo ds.length = false) :
    fold_digests_vector_inplace c ds = (Except.error Error.PowerOfTwoLengthRequired, ds) := by
  unfold fold_digests_vector_inplace
  rw [if_neg (by simp [h])]

lemma fold_length (c : D → D → D) (ds : List D) :
    (fold_digests_vector_inplace c ds).2.length = ds.length := by
  unfold fold_digests_vector_inplace
  split
  · exact foldLoop_length c _ ds
  · rfl

lemma fold_root (c : D → D → D) (ds : List D) (d : Nat) (h : ds.length = 2 ^ d) :
    (fold_digests_vector_inplace c ds).2.getD 0 default = node c ds d 0 0 := by
  rw [fold_ok c ds d h]
  cases d with
  | zero =>
    have h1 : ds.length = 1 := by simpa using h
    rw [h1, show (1 : Nat) / 2 = 0 from rfl, foldLoop_zero,
      node_leaf c ds 0 0 0 le_rfl]
  | succ e =>
    have hdiv : ds.length / 2 = 2 ^ e := by
      rw [h, pow_succ]; exact Nat.mul_div_cancel _ two_pos
    rw [hdiv]
    refine foldLoop_root c ds (e + 1) e ds h (by omega) ?_
    intro i _
    rw [node_leaf c ds (e + 1) (e + 1) i le_rfl]

lemma openLoop_snd (c : D → D → D) :
    ∀ (sibs : List D) (dg : D) (i : Nat), (openLoop c dg i sibs).2 = i / 2 ^ sibs.length := by
  intro sibs
  induction sibs with
  | nil =>
    intro dg i
    simp [openLoop]
  | cons s rest ih =>
    intro dg i
    show (openLoop c _ (i / 2) rest).2 = i / 2 ^ (rest.length + 1)
    rw [ih, Nat.div_div_eq_div_mul, ← Nat.pow_succ']

lemma authPath_length (c : D → D → D) (leaves : List D) (d : Nat) :
    ∀ (m t i : Nat), (authPath c leaves d t i m).length = m := by
  intro m
  induction m with
  | zero => intro t i; rfl
  | succ m ih =>
    intro t i
    show (authPath c leaves d (t - 1) (i / 2) m).length + 1 = m + 1
    rw [ih]

lemma openLoop_authPath (c : D → D → D) (leaves : List D) (d : Nat) :
    ∀ (m t i : Nat), m ≤ t → t ≤ d →
      openLoop c (node c leaves d t i) i (authPath c leaves d t i m) =
        (node c leaves d (t - m) (i / 2 ^ m), i / 2 ^ m) := by
  intro m
  induction m with
  | zero =>
    intro t i _ _
    simp [authPath, openLoop]
  | succ m ih =>
    intro t i hmt htd
    show openLoop c
        (if i % 2 = 0 then
          c (node c leaves d t i) (node c leaves d t (if i % 2 = 0 then i + 1 else i - 1))
         else
          c (node c leaves d t (if i % 2 = 0 then i + 1 else i - 1)) (node c leaves d t i))
        (i / 2) (authPath c leaves d (t - 1) (i / 2) m) = _
    have hinner := node_inner c leaves d (t - 1) (i / 2) (by omega)
    rw [show t - 1 + 1 = t by omega] at hinner
    have hcomb : (if i % 2 = 0 then
          c (node c leaves d t i) (node c leaves d t (if i % 2 = 0 then i + 1 else i - 1))
         else
          c (node c leaves d t (if i % 2 = 0 then i + 1 else i - 1)) (node c leaves d t i)) =
        node c leaves d (t - 1) (i / 2) := by
      by_cases hpar : i % 2 = 0
      · rw [if_pos hpar, if_pos hpar, hinner, show 2 * (i / 2) = i by omega]
      · rw [if_neg hpar, if_neg hpar, hinner, show 2 * (i / 2) = i - 1 by omega,
          show i - 1 + 1 = i by omega]
    rw [hcomb, ih (t - 1) (i / 2) (by omega) (by omega),
      show t - 1 - m = t - (m + 1) by omega,
      Nat.div_div_eq_div_mul, ← Nat.pow_succ']

lemma layerList_length (c : D → D → D) (leaves : List D) (d k : Nat) :
    (layerList c leaves d k).length = 2 ^ k := by
  simp [layerList]

lemma layerList_getD (c : D → D → D) (leaves : List D) (d k j : Nat) (h : j < 2 ^ k) :
    (layerList c leaves d k).getD j default = node c leaves d k j := by
  unfold layerList
  rw [getD_map_of_lt _ _ _ 0 _ (by simpa using h),
    List.getD_eq_getElem _ _ (by simpa using h), List.getElem_range]

lemma node_layerList_aux (c : D → D → D) (leaves : List D) (d k : Nat) (hkd : k ≤ d) :
    ∀ (m : Nat), m ≤ k → ∀ j, j < 2 ^ (k - m) →
      node c (layerList c leaves d k) k (k - m) j = node c leaves d (k - m) j := by
  intro m
  induction m with
  | zero =>
    intro _ j hj
    simp only [Nat.sub_zero] at hj ⊢
    rw [node_leaf c _ k k j le_rfl, layerList_getD c leaves d k j hj]
  | succ m ih =>
    intro hmk j hj
    have hsucc : k - (m + 1) + 1 = k - m := by omega
    have hpow2 : 2 ^ (k - m) = 2 ^ (k - (m + 1)) * 2 := by rw [← hsucc, pow_succ]
    rw [node_inner c _ k (k - (m + 1)) j (by omega), hsucc,
      ih (by omega) (2 * j) (by omega), ih (by omega) (2 * j + 1) (by omega),
      ← hsucc, ← node_inner c leaves d (k - (m + 1)) j (by omega)]

lemma node_layerList (c : D → D → D) (leaves : List D) (d k t j : Nat)
    (htk : t ≤ k) (hkd : k ≤ d) (hj : j < 2 ^ t) :
    node c (layerList c leaves d k) k t j = node c leaves d t j := by
  have hkt : k - (k - t) = t := by omega
  have := node_layerList_aux c leaves d k hkd (k - t) (by omega) j (by rw [hkt]; exact hj)
  rw [hkt] at this
  exact this

lemma verify_opening_eval (c : D → D → D) (hashF : List F → D) (index : Nat)
    (values : List F) (layer_depth tree_depth : Nat) (layer_digests proof : List D)
    (hlen : layer_digests.length = 2 ^ layer_depth)
    (hix : index < 2 ^ tree_depth)
    (hld : layer_depth ≤ tree_depth)
    (hproof : tree_depth - layer_depth ≤ proof.length) :
    verify_opening c hashF index values layer_depth tree_depth layer_digests proof =
      some
        (if (openLoop c (hashF values) index (proof.take (tree_depth - layer_depth))).1 =
            layer_digests.getD (index / 2 ^ (tree_depth - layer_depth)) default
         then Except.ok () else Except.error Error.InvalidProof,
         proof.drop (tree_depth - layer_depth)) := by
  have hidx : index / 2 ^ (tree_depth - layer_depth) < layer_digests.length := by
    rw [hlen]
    refine div_two_pow_lt ?_
    rw [show layer_depth + (tree_depth - layer_depth) = tree_depth by omega]
    exact hix
  have hr2 : (openLoop c (hashF values) index
      (proof.take (tree_depth - layer_depth))).2 = index / 2 ^ (tree_depth - layer_depth) := by
    rw [openLoop_snd, List.length_take, Nat.min_eq_left hproof]
  unfold verify_opening
  rw [if_neg (by simp [hlen]), if_neg (by omega)]
  unfold usizeSub
  rw [if_pos hld]
  show (match readVec (tree_depth - layer_depth) proof with
    | Except.error e => some (Except.error e, proof)
    | Except.ok (branch, rest) =>
      match layer_digests.get? (openLoop c (hashF values) index branch).2 with
      | none => none
      | some dg =>
        some (if (openLoop c (hashF values) index branch).1 = dg then Except.ok ()
              else Except.error Error.InvalidProof, rest)) = _
  unfold readVec
  rw [if_pos hproof]
  show (match layer_digests.get? (openLoop c (hashF values) index
      (proof.take (tree_depth - layer_depth))).2 with
    | none => none
    | some dg =>
      some (if (openLoop c (hashF values) index (proof.take (tree_depth - layer_depth))).1 = dg
            then Except.ok () else Except.error Error.InvalidProof,
            proof.drop (tree_depth - layer_depth))) = _
  rw [hr2, List.get?_eq_getElem?, List.getElem?_eq_getElem hidx]
  show some (if _ = layer_digests[index / 2 ^ (tree_depth - layer_depth)] then _ else _, _) = _
  rw [List.getD_eq_getElem _ _ hidx]

lemma verify_opening_underrun (c : D → D → D) (hashF : List F → D) (index : Nat)
    (values : List F) (layer_depth tree_depth : Nat) (layer_digests proof : List D)
    (hlen : layer_digests.length = 2 ^ layer_depth)
    (hix : index < 2 ^ tree_depth)
    (hld : layer_depth ≤ tree_depth)
    (hproof : proof.length < tree_depth - layer_depth) :
    verify_opening c hashF index values layer_depth tree_depth layer_digests proof =
      some (Except.error Error.TranscriptUnderrun, proof) := by
  unfold verify_opening
  rw [if_neg (by simp [hlen]), if_neg (by omega)]
  unfold usizeSub
  rw [if_pos hld]
  show (match readVec (tree_depth - layer_depth) proof with
    | Except.error e => some (Except.error e, proof)
    | Except.ok (branch, rest) =>
      match layer_digests.get? (openLoop c (hashF values) index branch).2 with
      | none => none
      | some dg =>
        some (if (openLoop c (hashF values) index branch).1 = dg then Except.ok ()
              else Except.error Error.InvalidProof, rest)) = _
  unfold readVec
  rw [if_neg (by omega)]

lemma verify_layer_eq (c : D → D → D) (root : D) (k : Nat) (layer : List D)
    (hlay : layer.length = 2 ^ k) :
    verify_layer c root k layer =
      if (fold_digests_vector_inplace c layer).2.getD 0 default ≠ root then
        Except.error Error.InvalidProof
      else Except.ok () := by
  unfold verify_layer verify_layer_st
  rw [if_neg (by simp [hlay]), fold_ok c layer k hlay]

lemma verify_layer_ok (c : D → D → D) (leaves : List D) (d k : Nat) (hkd : k ≤ d) :
    verify_layer c (node c leaves d 0 0) k (layerList c leaves d k) = Except.ok () := by
  have hlay := layerList_length c leaves d k
  have h1 : (fold_digests_vector_inplace c (layerList c leaves d k)).2.getD 0 default =
      node c leaves d 0 0 := by
    rw [fold_root c _ k hlay,
      node_layerList c leaves d k 0 0 (Nat.zero_le _) hkd (by norm_num)]
  rw [verify_layer_eq c _ k _ hlay, if_neg (not_not_intro h1)]

end FoldLemmas

lemma three_ne_two_pow : ∀ d : Nat, (3 : Nat) ≠ 2 ^ d := by
  intro d
  match d with
  | 0 => decide
  | 1 => decide
  | e + 2 =>
    have : 2 ^ 2 ≤ 2 ^ (e + 2) := Nat.pow_le_pow_right two_pos (by omega)
    omega

/-! ### The claims -/

section Claims

variable {D F : Type} [Inhabited D] [DecidableEq D]

/-- C1: for a digest array of length `2 ^ d`, `fold_digests_vector_inplace`
succeeds and leaves in position 0 the Merkle root of the original array
(the value of the recurrence `node`), keeping the buffer length; for any
length that is not a power of two (length 0 included) it fails with the
power-of-two error and leaves the array unchanged. -/
theorem fold_digests_vector_inplace_spec (c : D → D → D) (ds : List D) :
    (∀ d : Nat, ds.length = 2 ^ d →
      (fold_digests_vector_inplace c ds).1 = Except.ok () ∧
      (fold_digests_vector_inplace c ds).2.getD 0 default = node c ds d 0 0 ∧
      (fold_digests_vector_inplace c ds).2.length = ds.length) ∧
    ((∀ d : Nat, ds.length ≠ 2 ^ d) →
      fold_digests_vector_inplace c ds =
        (Except.error Error.PowerOfTwoLengthRequired, ds)) := by
  constructor
  · intro d hd
    exact ⟨by rw [fold_ok c ds d hd], fold_root c ds d hd, fold_length c ds⟩
  · intro h
    exact fold_error c ds (isPowerOfTwo_eq_false_of _ h)

theorem fold_digests_vector_inplace_spec_witness :
    ((fold_digests_vector_inplace natCompress [1, 2, 3, 4]).1 = Except.ok () ∧
      (fold_digests_vector_inplace natCompress [1, 2, 3, 4]).2.getD 0 default =
        node natCompress [1, 2, 3, 4] 2 0 0 ∧
      (fold_digests_vector_inplace natCompress [1, 2, 3, 4]).2.length =
        ([1, 2, 3, 4] : List Nat).length) ∧
    fold_digests_vector_inplace natCompress [5, 6, 7] =
      (Except.error Error.PowerOfTwoLengthRequired, [5, 6, 7]) :=
  ⟨(fold_digests_vector_inplace_spec natCompress [1, 2, 3, 4]).1 2 (by decide),
   (fold_digests_vector_inplace_spec natCompress [5, 6, 7]).2
     (by intro d; simpa using three_ne_two_pow d)⟩

/-- C2: with a layer of the claimed length, an in-range index, a layer depth
at most the tree depth, and a proof stream holding at least
`tree_depth - layer_depth` digests, `verify_opening` consumes exactly those
digests in order, replays the leaf digest through `openLoop` (compressing on
the side given by the index parity, halving the index each level), and
succeeds exactly when the result equals the layer entry at the shifted index,
failing with "invalid proof" otherwise. -/
theorem verify_opening_spec (c : D → D → D) (hashF : List F → D) (index : Nat)
    (values : List F) (layer_depth tree_depth : Nat) (layer_digests proof : List D)
    (hlen : layer_digests.length = 2 ^ layer_depth)
    (hix : index < 2 ^ tree_depth)
    (hld : layer_depth ≤ tree_depth)
    (hproof : tree_depth - layer_depth ≤ proof.length) :
    verify_opening c hashF index values layer_depth tree_depth layer_digests proof =
      some
        (if (openLoop c (hashF values) index (proof.take (tree_depth - layer_depth))).1 =
            layer_digests.getD (index / 2 ^ (tree_depth - layer_depth)) default
         then Except.ok () else Except.error Error.InvalidProof,
         proof.drop (tree_depth - layer_depth)) :=
  verify_opening_eval c hashF index values layer_depth tree_depth layer_digests proof
    hlen hix hld hproof

theorem verify_opening_spec_witness :
    verify_opening natCompress natHash 1 [4] 0 1 [99] [7] =
      some
        (if (openLoop natCompress (natHash [4]) 1 (([7] : List Nat).take (1 - 0))).1 =
            ([99] : List Nat).getD (1 / 2 ^ (1 - 0)) default
         then Except.ok () else Except.error Error.InvalidProof,
         ([7] : List Nat).drop (1 - 0)) :=
  verify_opening_spec natCompress natHash 1 [4] 0 1 [99] [7]
    (by decide) (by decide) (by decide) (by decide)

/-- C3: round trip — over any chunk list of length `2 ^ d`, for any
`layer_depth ≤ d` and leaf index, verifying the true layer (`layerList`)
against the true root succeeds, and verifying the leaf's true values with its
true sibling path (`authPath`) against that layer succeeds, the
`layer_depth = d` case degenerating to a zero-sibling comparison against the
leaf layer. -/
theorem merkle_round_trip (c : D → D → D) (hashF : List F → D) (chunksL : List (List F))
    (d layer_depth index : Nat)
    (hd : chunksL.length = 2 ^ d) (hld : layer_depth ≤ d) (hix : index < 2 ^ d) :
    verify_layer c (node c (chunksL.map hashF) d 0 0) layer_depth
      (layerList c (chunksL.map hashF) d layer_depth) = Except.ok () ∧
    verify_opening c hashF index (chunksL.getD index []) layer_depth d
      (layerList c (chunksL.map hashF) d layer_depth)
      (authPath c (chunksL.map hashF) d d index (d - layer_depth)) =
      some (Except.ok (), []) := by
  set leaves := chunksL.map hashF with hleaves
  refine ⟨verify_layer_ok c leaves d layer_depth hld, ?_⟩
  have hpathlen : (authPath c leaves d d index (d - layer_depth)).length =
      d - layer_depth := authPath_length c leaves d (d - layer_depth) d index
  rw [verify_opening_eval c hashF index (chunksL.getD index []) layer_depth d _ _
    (layerList_length c leaves d layer_depth) hix hld (by rw [hpathlen])]
  have htake : (authPath c leaves d d index (d - layer_depth)).take (d - layer_depth) =
      authPath c leaves d d index (d - layer_depth) :=
    List.take_of_length_le (by rw [hpathlen])
  have hseed : hashF (chunksL.getD index []) = node c leaves d d index := by
    rw [node_leaf c leaves d d index le_rfl, hleaves,
      getD_map_of_lt hashF chunksL index [] default (by omega)]
  rw [htake, hseed, openLoop_authPath c leaves d (d - layer_depth) d index (by omega) le_rfl]
  dsimp only
  rw [show d - (d - layer_depth) = layer_depth by omega]
  have hb : index / 2 ^ (d - layer_depth) < 2 ^ layer_depth :=
    div_two_pow_lt (by rw [show layer_depth + (d - layer_depth) = d by omega]; exact hix)
  rw [layerList_getD c leaves d layer_depth _ hb, if_pos rfl,
    List.drop_eq_nil_of_le (by rw [hpathlen])]

theorem merkle_round_trip_witness :
    verify_layer natCompress (node natCompress ([[0], [1], [2], [3]].map natHash) 2 0 0) 1
      (layerList natCompress ([[0], [1], [2], [3]].map natHash) 2 1) = Except.ok () ∧
    verify_opening natCompress natHash 3 ([[0], [1], [2], [3]].getD 3 []) 1 2
      (layerList natCompress ([[0], [1], [2], [3]].map natHash) 2 1)
      (authPath natCompress ([[0], [1], [2], [3]].map natHash) 2 2 3 (2 - 1)) =
      some (Except.ok (), []) :=
  merkle_round_trip natCompress natHash [[0], [1], [2], [3]] 2 1 3
    (by decide) (by decide) (by decide)

/-- C4 counterexample: the claim admits `layer_depth = log_len` (via
`layer_depth ≤ log_len`), but there `proof_size` underflows on
`log_len - layer_depth - 1` and panics (`none`) instead of returning `Ok` of
anything: witnessed at `vector_len = 2`, `n_queries = 1`, `layer_depth = 1`. -/
theorem proof_size_claim_counterexample :
    proof_size 32 2 1 1 = none ∧ ∀ v : Nat, proof_size 32 2 1 1 ≠ some (Except.ok v) := by
  refine ⟨rfl, ?_⟩
  intro v h
  rw [show proof_size 32 2 1 1 = none from rfl] at h
  exact Option.noConfusion h

/-- C4 (amended): for a power-of-two `vector_len = 2 ^ d`, `proof_size`
returns `Ok` of `((log_len - layer_depth - 1) * n_queries + 2 ^ layer_depth) *
digest_byte_size` only for `layer_depth < log_len`; at `layer_depth =
log_len` the subtraction `log_len - layer_depth - 1` underflows and the call
panics; for `layer_depth > log_len` it fails with "incorrect layer depth",
and for a non-power-of-two length with the power-of-two error.  The concrete
check `proof_size 16 5 1` (32-byte digests) `= 384` holds. -/
theorem proof_size_spec (output_size n_queries d layer_depth len : Nat) :
    (layer_depth < d →
      proof_size output_size (2 ^ d) n_queries layer_depth =
        some (Except.ok
          (((d - layer_depth - 1) * n_queries + 2 ^ layer_depth) * output_size))) ∧
    (layer_depth = d → proof_size output_size (2 ^ d) n_queries layer_depth = none) ∧
    (d < layer_depth →
      proof_size output_size (2 ^ d) n_queries layer_depth =
        some (Except.error Error.IncorrectLayerDepth)) ∧
    (isPowerOfTwo len = false →
      proof_size output_size len n_queries layer_depth =
        some (Except.error Error.PowerOfTwoLengthRequired)) ∧
    proof_size 32 16 5 1 = some (Except.ok 384) := by
  refine ⟨?_, ?_, ?_, ?_, rfl⟩
  · intro h
    unfold proof_size
    rw [if_neg (by simp [isPowerOfTwo_two_pow d]), log2_strict_two_pow d,
      if_neg (by omega)]
    unfold usizeSub
    rw [if_pos (by omega : layer_depth ≤ d)]
    dsimp only
    rw [if_pos (by omega : 1 ≤ d - layer_depth)]
  · intro h
    subst h
    unfold proof_size
    rw [if_neg (by simp [isPowerOfTwo_two_pow layer_depth]),
      log2_strict_two_pow layer_depth, if_neg (by omega)]
    unfold usizeSub
    rw [if_pos (le_refl layer_depth)]
    dsimp only
    rw [if_neg (by omega : ¬ 1 ≤ layer_depth - layer_depth)]
  · intro h
    unfold proof_size
    rw [if_neg (by simp [isPowerOfTwo_two_pow d]), log2_strict_two_pow d, if_pos (by omega)]
  · intro h
    unfold proof_size
    rw [if_pos h]

theorem proof_size_spec_witness :
    proof_size 1 (2 ^ 2) 1 1 = some (Except.ok (((2 - 1 - 1) * 1 + 2 ^ 1) * 1)) ∧
    proof_size 1 (2 ^ 2) 1 2 = none ∧
    proof_size 1 (2 ^ 2) 1 3 = some (Except.error Error.IncorrectLayerDepth) ∧
    proof_size 1 3 1 1 = some (Except.error Error.PowerOfTwoLengthRequired) :=
  ⟨(proof_size_spec 1 1 2 1 3).1 (by norm_num),
   (proof_size_spec 1 1 2 2 3).2.1 rfl,
   (proof_size_spec 1 1 2 3 3).2.2.1 (by norm_num),
   (proof_size_spec 1 1 2 1 3).2.2.2.1 (by decide)⟩

/-- C5: `optimal_verify_layer(n_queries, tree_depth)` is
`min(ceil(log2 n_queries), tree_depth)` — with `ceil(log2 n)` the least `k`
such that `n ≤ 2 ^ k`, i.e. `Nat.clog 2 n` — and in particular
`optimal_verify_layer 5 10 = 3` and `optimal_verify_layer 2000 8 = 8`
(`ceil(log2 2000) = 11` clipped to the tree depth). -/
theorem optimal_verify_layer_spec :
    (∀ n_queries tree_depth : Nat,
      optimal_verify_layer n_queries tree_depth =
        min (Nat.clog 2 n_queries) tree_depth) ∧
    optimal_verify_layer 5 10 = 3 ∧ optimal_verify_layer 2000 8 = 8 := by
  have h5 : Nat.clog 2 5 = 3 := by
    have h1 : Nat.clog 2 5 ≤ 3 := (Nat.le_pow_iff_clog_le one_lt_two).mp (by norm_num)
    have h2 : ¬ Nat.clog 2 5 ≤ 2 := fun hc =>
      absurd ((Nat.le_pow_iff_clog_le one_lt_two).mpr hc) (by norm_num)
    omega
  have h2000 : Nat.clog 2 2000 = 11 := by
    have h1 : Nat.clog 2 2000 ≤ 11 := (Nat.le_pow_iff_clog_le one_lt_two).mp (by norm_num)
    have h2 : ¬ Nat.clog 2 2000 ≤ 10 := fun hc =>
      absurd ((Nat.le_pow_iff_clog_le one_lt_two).mpr hc) (by norm_num)
    omega
  refine ⟨fun n t => rfl, ?_, ?_⟩
  · show min (Nat.clog 2 5) 10 = 3
    rw [h5]
    decide
  · show min (Nat.clog 2 2000) 8 = 8
    rw [h2000]
    decide

/-- C6: with a layer of the claimed length and `index ≥ 2 ^ tree_depth`,
`verify_opening` fails with the index-out-of-range error reporting
`2 ^ tree_depth - 1` as the maximum valid index, and consumes nothing from
the proof stream. -/
theorem verify_opening_index_oob (c : D → D → D) (hashF : List F → D) (index : Nat)
    (values : List F) (layer_depth tree_depth : Nat) (layer_digests proof : List D)
    (hlen : layer_digests.length = 2 ^ layer_depth)
    (hix : 2 ^ tree_depth ≤ index) :
    verify_opening c hashF index values layer_depth tree_depth layer_digests proof =
      some (Except.error (Error.IndexOutOfRange (2 ^ tree_depth - 1)), proof) := by
  unfold verify_opening
  rw [if_neg (by simp [hlen]), if_pos hix]

theorem verify_opening_index_oob_witness :
    verify_opening natCompress natHash 4 [3] 1 2 [5, 6] [7] =
      some (Except.error (Error.IndexOutOfRange (2 ^ 2 - 1)), [7]) :=
  verify_opening_index_oob natCompress natHash 4 [3] 1 2 [5, 6] [7]
    (by decide) (by decide)

/-- C7 counterexample: with `layer_digests = [5, 6]` of length `2 ^ 1`,
`index = 0 < 2 ^ 0` and `layer_depth = 1 > tree_depth = 0`, `verify_opening`
panics on the underflowing `tree_depth - layer_depth` subtraction (result
`none`) — it does not return a reported error. -/
theorem verify_opening_claim_counterexample :
    verify_opening natCompress natHash 0 ([] : List Nat) 1 0 [5, 6] [] = none ∧
    ∀ (e : Error) (rest : List Nat),
      verify_opening natCompress natHash 0 ([] : List Nat) 1 0 [5, 6] [] ≠
        some (Except.error e, rest) := by
  refine ⟨rfl, ?_⟩
  intro e rest h
  rw [show verify_opening natCompress natHash 0 ([] : List Nat) 1 0 [5, 6] [] = none
    from rfl] at h
  exact Option.noConfusion h

/-- C7 (amended): `verify_opening` reports the two shape checks it actually
performs (layer length, index range) as typed errors, but has no
`layer_depth ≤ tree_depth` check: when both checks pass and
`layer_depth > tree_depth`, the `tree_depth - layer_depth` subtraction
underflows and the call panics instead of returning a reported error. -/
theorem verify_opening_underflow (c : D → D → D) (hashF : List F → D) (index : Nat)
    (values : List F) (layer_depth tree_depth : Nat) (layer_digests proof : List D)
    (hlen : layer_digests.length = 2 ^ layer_depth)
    (hix : index < 2 ^ tree_depth)
    (hld : tree_depth < layer_depth) :
    verify_opening c hashF index values layer_depth tree_depth layer_digests proof =
      none := by
  unfold verify_opening
  rw [if_neg (by simp [hlen]), if_neg (by omega)]
  unfold usizeSub
  rw [if_neg (by omega)]

theorem verify_opening_underflow_witness :
    verify_opening natCompress natHash 0 ([] : List Nat) 2 1 [7, 8, 9, 10] [11] = none :=
  verify_opening_underflow natCompress natHash 0 [] 2 1 [7, 8, 9, 10] [11]
    (by decide) (by decide) (by decide)

/-- C8 counterexample: at `batch_size = 0` with nonempty data (`0` does not
divide `1`), `verify_vector` panics on the `data.len() % 0` remainder
(result `none`) instead of failing with the "incorrect batch size" error the
claim promises for every `batch_size`. -/
theorem verify_vector_claim_counterexample :
    verify_vector natCompress natHash 0 [1] 0 = none ∧
    verify_vector natCompress natHash 0 [1] 0 ≠
      some (Except.error Error.IncorrectBatchSize) := by
  refine ⟨rfl, ?_⟩
  intro h
  rw [show verify_vector natCompress natHash 0 [1] 0 = none from rfl] at h
  exact Option.noConfusion h

/-- C8 (amended): for every positive `batch_size`, `verify_vector` fails with
"incorrect batch size" when `batch_size` does not divide `data.len()`;
otherwise it hashes the consecutive `batch_size`-chunks, folds the digests
(failing with the power-of-two error when the chunk count is not a power of
two), and succeeds exactly when the folded digest — the Merkle root `node` of
the chunk digests — equals `root`, failing with "invalid proof" otherwise.
At `batch_size = 0` the call panics on the remainder by zero. -/
theorem verify_vector_spec (c : D → D → D) (hashF : List F → D) (root : D)
    (data : List F) (batch_size : Nat) (hbs : 1 ≤ batch_size) :
    (data.length % batch_size ≠ 0 →
      verify_vector c hashF root data batch_size =
        some (Except.error Error.IncorrectBatchSize)) ∧
    (data.length % batch_size = 0 →
      (isPowerOfTwo ((chunks batch_size data).map hashF).length = false →
        verify_vector c hashF root data batch_size =
          some (Except.error Error.PowerOfTwoLengthRequired)) ∧
      (∀ d : Nat, ((chunks batch_size data).map hashF).length = 2 ^ d →
        verify_vector c hashF root data batch_size =
          some (if node c ((chunks batch_size data).map hashF) d 0 0 = root
                then Except.ok () else Except.error Error.InvalidProof))) := by
  constructor
  · intro hmod
    unfold verify_vector
    rw [if_neg (by omega), if_pos hmod]
  · intro hmod
    constructor
    · intro hp2
      unfold verify_vector
      rw [if_neg (by omega), if_neg (not_not_intro hmod), fold_error c _ hp2]
    · intro d hd
      unfold verify_vector
      rw [if_neg (by omega), if_neg (not_not_intro hmod), fold_ok c _ d hd]
      have hroot : (foldLoop c ((chunks batch_size data).map hashF)
          (((chunks batch_size data).map hashF).length / 2)).getD 0 default =
          node c ((chunks batch_size data).map hashF) d 0 0 := by
        have h2 := fold_root c ((chunks batch_size data).map hashF) d hd
        rwa [fold_ok c _ d hd] at h2
      show some (if (foldLoop c ((chunks batch_size data).map hashF)
          (((chunks batch_size data).map hashF).length / 2)).getD 0 default ≠ root then
          Except.error Error.InvalidProof else Except.ok ()) = _
      rw [hroot]
      by_cases hr : node c ((chunks batch_size data).map hashF) d 0 0 = root
      · rw [if_neg (not_not_intro hr), if_pos hr]
      · rw [if_pos hr, if_neg hr]

theorem verify_vector_spec_witness :
    verify_vector natCompress natHash 42 [5, 6, 7] 2 =
      some (Except.error Error.IncorrectBatchSize) ∧
    verify_vector natCompress natHash 42 [5, 6] 1 =
      some (if node natCompress ((chunks 1 [5, 6]).map natHash) 1 0 0 = 42
            then Except.ok () else Except.error Error.InvalidProof) :=
  ⟨(verify_vector_spec natCompress natHash 42 [5, 6, 7] 2 (by decide)).1 (by decide),
   ((verify_vector_spec natCompress natHash 42 [5, 6] 1 (by decide)).2 (by decide)).2 1
     (by norm_num [chunks])⟩

/-- C9: `verify_layer` never mutates the caller's layer digest sequence:
whatever the outcome, the caller-visible slice after the call equals the one
passed in, because folding is applied only to a callee-owned copy. -/
theorem verify_layer_frame (c : D → D → D) (root : D) (layer_depth : Nat)
    (layer_digests : List D) :
    (verify_layer_st c root layer_depth layer_digests).2 = layer_digests := by
  unfold verify_layer_st
  split
  · rfl
  · split <;> rfl

/-- C10: under the two checks `verify_opening` performs (layer length and
index range) together with `layer_depth ≤ tree_depth`, the final layer lookup
is in bounds — the index shifted right once per sibling stays below the layer
length `2 ^ layer_depth` — so the call never panics. -/
theorem verify_opening_inbounds (c : D → D → D) (hashF : List F → D) (index : Nat)
    (values : List F) (layer_depth tree_depth : Nat) (layer_digests proof : List D)
    (hlen : layer_digests.length = 2 ^ layer_depth)
    (hix : index < 2 ^ tree_depth)
    (hld : layer_depth ≤ tree_depth) :
    index / 2 ^ (tree_depth - layer_depth) < layer_digests.length ∧
    verify_opening c hashF index values layer_depth tree_depth layer_digests proof ≠
      none := by
  have h1 : index / 2 ^ (tree_depth - layer_depth) < layer_digests.length := by
    rw [hlen]
    refine div_two_pow_lt ?_
    rw [show layer_depth + (tree_depth - layer_depth) = tree_depth by omega]
    exact hix
  refine ⟨h1, ?_⟩
  by_cases hk : tree_depth - layer_depth ≤ proof.length
  · rw [verify_opening_eval c hashF index values layer_depth tree_depth layer_digests
      proof hlen hix hld hk]
    simp
  · rw [verify_opening_underrun c hashF index values layer_depth tree_depth layer_digests
      proof hlen hix hld (by omega)]
    simp

theorem verify_opening_inbounds_witness :
    1 / 2 ^ (2 - 1) < ([5, 6] : List Nat).length ∧
    verify_opening natCompress natHash 1 [4] 1 2 [5, 6] [7, 8] ≠ none :=
  verify_opening_inbounds natCompress natHash 1 [4] 1 2 [5, 6] [7, 8]
    (by decide) (by decide) (by decide)

end Claims

end BinaryMerkle
